/-
  Verification of the tree-monitoring application's specifiable core:
  the biomass/CO₂ estimator `calculate_co2`, the per-institution
  identifier allocator `generate_tree_id`, and the institution-dashboard
  tree create/update operations.

  Numeric model: the Python source computes in 64-bit floats; here the
  arithmetic is idealised over exact rationals/reals.  Every intermediate
  value of the estimator has the form `c * sqrt r` with `c r : ℚ`,
  represented by the pair `SqrtQ`; the final `round(x, 2)` (Python's
  round-half-to-even) is implemented exactly over that representation via
  integer square roots, and proved correct against the real-number
  rounding characterisation `isRound2`.
-/
import Mathlib

namespace TreeApp

/-! ## Species reference data -/

/-- A row of the `species` table: scientific name and wood density
    (g/cm³), as consumed by `calculate_co2`. -/
structure Species where
  scientific_name : String
  wood_density : ℚ
deriving DecidableEq, Repr

/-- The density lookup inside `calculate_co2` (source lines 300–304):
    `species_data[species_data["scientific_name"] == scientific_name]["wood_density"].values[0]`
    with the bare `except` substituting `0.6` when no row matches. -/
def speciesDensity (species_data : List Species) (scientific_name : String) : ℚ :=
  match species_data.find? (fun s => s.scientific_name == scientific_name) with
  | some s => s.wood_density
  | none => 0.6

/-! ## Exact representation of `c * sqrt r` values -/

/-- An exact representation of the nonnegative real `coef * sqrt rad`
    (meaningful when `0 ≤ coef` and `0 ≤ rad`).  Every intermediate value
    of the estimator has this shape because `x ** 2.5 = x^2 * sqrt x` and
    all further steps are scalings and same-radical additions. -/
structure SqrtQ where
  coef : ℚ
  rad : ℚ
deriving DecidableEq, Repr

/-- Scalar multiplication `a * (c * sqrt r) = (a*c) * sqrt r`. -/
def SqrtQ.smul (a : ℚ) (x : SqrtQ) : SqrtQ := ⟨a * x.coef, x.rad⟩

/-- Addition of two values over the same radical (used only for
    `agb + bgb`, which share their radical by construction). -/
def SqrtQ.addSame (x y : SqrtQ) : SqrtQ := ⟨x.coef + y.coef, x.rad⟩

/-- `x ** 2.5 = x^2 * sqrt x` for `0 ≤ x`. -/
def pow25 (x : ℚ) : SqrtQ := ⟨x ^ 2, x⟩

/-- `⌊sqrt q⌋` for a nonnegative rational `q = a / b`:
    `sqrt (a/b) = sqrt (a*b) / b`, and flooring commutes with the nat
    division. -/
def ratSqrtFloor (q : ℚ) : ℕ :=
  Nat.sqrt (q.num.toNat * q.den) / q.den

/-- Round `sqrt V` (for `0 ≤ V : ℚ`) to the nearest natural number,
    ties to even — the idealisation of Python's `round` applied to a
    value whose square is rational.  With `n = ⌊sqrt V⌋`:
    `sqrt V > n + 1/2 ↔ 4V > (2n+1)²`, and the tie `sqrt V = n + 1/2`
    is the rational equality `4V = (2n+1)²`. -/
def sqrtRoundHalfEven (V : ℚ) : ℕ :=
  let n := ratSqrtFloor V
  if ((2 * n + 1 : ℚ)) ^ 2 < 4 * V then n + 1
  else if 4 * V = ((2 * n + 1 : ℚ)) ^ 2 then (if n % 2 = 0 then n else n + 1)
  else n

/-- Python's `round(v, 2)` for `v = coef * sqrt rad`:
    `v * 100 = sqrt ((100*coef)^2 * rad)`, rounded half-to-even to an
    integer, divided by 100. -/
def SqrtQ.round2 (x : SqrtQ) : ℚ :=
  (sqrtRoundHalfEven ((100 * x.coef) ^ 2 * x.rad) : ℚ) / 100

/-! ## The estimator `calculate_co2` (source lines 299–315) -/

/-- The measurement-dependent part of `calculate_co2`, with the wood
    density already resolved (source lines 306–315):
    `if dbh is not None: agb = 0.0509 * density * dbh**2.5`
    `elif rcd is not None: agb = 0.042 * rcd**2.5`
    `else: return 0.0`
    `bgb = 0.2 * agb; carbon = 0.47 * (agb + bgb); return round(carbon*3.67, 2)`. -/
def co2WithDensity (density : ℚ) (rcd dbh : Option ℚ) : ℚ :=
  match dbh, rcd with
  | some d_bh, _ =>
    let agb := SqrtQ.smul (0.0509 * density) (pow25 d_bh)
    let bgb := SqrtQ.smul 0.2 agb
    let carbon := SqrtQ.smul 0.47 (agb.addSame bgb)
    (SqrtQ.smul 3.67 carbon).round2
  | none, some r_cd =>
    let agb := SqrtQ.smul 0.042 (pow25 r_cd)
    let bgb := SqrtQ.smul 0.2 agb
    let carbon := SqrtQ.smul 0.47 (agb.addSame bgb)
    (SqrtQ.smul 3.67 carbon).round2
  | none, none => 0

/-- `calculate_co2(scientific_name, rcd, dbh)`: density lookup with
    fallback `0.6`, then the biomass chain. -/
def calculate_co2 (species_data : List Species) (scientific_name : String)
    (rcd dbh : Option ℚ) : ℚ :=
  co2WithDensity (speciesDensity species_data scientific_name) rcd dbh

/-- Spec-side characterisation of "q is v rounded to 2 decimal places,
    ties to even": q = n/100 where n is within 1/2 of v*100, with ties
    resolved to the even integer. -/
def isRound2 (v : ℝ) (q : ℚ) : Prop :=
  ∃ n : ℤ, q = (n : ℚ) / 100 ∧
    (|v * 100 - n| < 1 / 2 ∨ (|v * 100 - n| = 1 / 2 ∧ Even n))

/-! ## The allocator `generate_tree_id` (source lines 283–297) -/

/-- The two columns of the tree table that `generate_tree_id` reads. -/
structure TreeRow where
  tree_id : String
  institution : String
deriving DecidableEq, Repr

/-- Python's `str.upper()` (over the characters of the string). -/
def pyUpper (s : String) : String := ⟨s.data.map Char.toUpper⟩

/-- Python's `str.lower()` (over the characters of the string). -/
def pyLower (s : String) : String := ⟨s.data.map Char.toLower⟩

/-- Python's slice `s[:n]`. -/
def strTake (s : String) (n : ℕ) : String := ⟨s.data.take n⟩

/-- Python's `s.startswith(p)`. -/
def strStarts (s p : String) : Bool := p.data.isPrefixOf s.data

/-- `re.search(r'\d+$', s)` followed by `int(...)`: the maximal trailing
    run of decimal digits of `s`, as a number; `none` when `s` does not
    end in a digit (where the Python raises `AttributeError` on the
    `None` match object). -/
def trailingNum (s : String) : Option ℕ :=
  let ds := (s.toList.reverse.takeWhile Char.isDigit).reverse
  if ds.isEmpty then none
  else some (ds.foldl (fun a c => a * 10 + (c.toNat - 48)) 0)

/-- The list comprehension
    `[int(re.search(r'\d+$', str(id)).group()) for id in existing_ids]`:
    all trailing numbers, or `none` as soon as one identifier has no
    trailing digits (modelling the uncaught exception). -/
def parseAll : List String → Option (List ℕ)
  | [] => some []
  | i :: rest =>
    match trailingNum i, parseAll rest with
    | some n, some ns => some (n :: ns)
    | _, _ => none

/-- Python's `f"{n:03d}"`: decimal digits of `n`, left-padded with zeros
    to width 3. -/
def pad3 (n : ℕ) : String :=
  if n < 10 then "00" ++ toString n
  else if n < 100 then "0" ++ toString n
  else toString n

/-- `generate_tree_id(institution_name)` over an explicit snapshot of the
    tree table (the source reads it via `load_tree_data()`):
    3-letter upper-cased prefix, case-insensitive institution filter,
    prefix filter on identifiers, then `max(trailing numbers) + 1`
    zero-padded — or `none` where the source raises on an identifier
    without trailing digits. -/
def generate_tree_id (institution_name : String) (trees : List TreeRow) :
    Option String :=
  let pfx := pyUpper (strTake institution_name 3)
  if trees.isEmpty then some (pfx ++ "001")
  else
    let institution_trees :=
      trees.filter (fun t => pyLower t.institution == pyLower institution_name)
    let existing_ids :=
      (institution_trees.map (fun t => t.tree_id)).filter
        (fun i => strStarts i pfx)
    if existing_ids.isEmpty then some (pfx ++ "001")
    else
      match parseAll existing_ids with
      | none => none
      | some nums => some (pfx ++ pad3 (nums.foldl max 0 + 1))

/-! ## Institution-dashboard tree create/update (source lines 875–1045) -/

/-- The fields of a tree record that the dashboard's create and update
    operations set (source `new_tree` / `update_data`). -/
structure TreeRec where
  scientific_name : String
  tree_stage : String
  rcd_cm : Option ℚ
  dbh_cm : Option ℚ
  height_m : ℚ
  co2_kg : ℚ
  status : String
deriving DecidableEq, Repr

/-- The `new_tree` dict of the Plant-New-Tree form (source lines
    1016–1034): stage `"Young (RCD)"`, `rcd_cm` 0.1, `dbh_cm` `None`,
    height 0.5, `co2_kg` 0.0, status `"Alive"`; the scientific name
    defaults to `"Unknown"` when the input is empty. -/
def newTree (scientific_name : String) : TreeRec :=
  { scientific_name := if scientific_name = "" then "Unknown" else scientific_name
    tree_stage := "Young (RCD)"
    rcd_cm := some 0.1
    dbh_cm := none
    height_m := 0.5
    co2_kg := 0
    status := "Alive" }

/-- One submission of the Monitor-Tree update form (source lines
    903–961).  When `status = "Alive"` the form shows exactly one
    measurement input, chosen by `tree_stage` (lines 922–937: the other
    variable is set to `None`); `update_data` (lines 952–958) then
    overwrites a field only under the guards shown, keeping the old value
    otherwise.  When `status ≠ "Alive"` every guard is false and only
    `status` changes. -/
def updateTree (species_data : List Species) (tree : TreeRec)
    (status tree_stage : String) (meas height : ℚ) : TreeRec :=
  let rcd : Option ℚ := if tree_stage = "Young (RCD)" then some meas else none
  let dbh : Option ℚ := if tree_stage = "Young (RCD)" then none else some meas
  let co2 := calculate_co2 species_data tree.scientific_name rcd dbh
  { tree with
    tree_stage := if status = "Alive" then tree_stage else tree.tree_stage
    rcd_cm := if status = "Alive" ∧ tree_stage = "Young (RCD)" then rcd else tree.rcd_cm
    dbh_cm := if status = "Alive" ∧ tree_stage = "Mature (DBH)" then dbh else tree.dbh_cm
    height_m := if status = "Alive" then height else tree.height_m
    co2_kg := if status = "Alive" then co2 else tree.co2_kg
    status := status }

/-- Tree states reachable through the institution dashboard: a freshly
    planted tree, or any update-form submission applied to a reachable
    state.  The form constrains `status` to `{"Alive", "Dead"}`,
    `tree_stage` to the two stage labels, and the numeric inputs to
    `min_value = 0.1`. -/
inductive Reachable (species_data : List Species) : TreeRec → Prop
  | create (scientific_name : String) :
      Reachable species_data (newTree scientific_name)
  | update (t : TreeRec) (status tree_stage : String) (meas height : ℚ)
      (ht : Reachable species_data t)
      (hs : status = "Alive" ∨ status = "Dead")
      (hg : tree_stage = "Young (RCD)" ∨ tree_stage = "Mature (DBH)")
      (hm : 1 / 10 ≤ meas) (hh : 1 / 10 ≤ height) :
      Reachable species_data (updateTree species_data t status tree_stage meas height)

end TreeApp

namespace TreeApp

/-! ## Correctness of the exact square-root rounding -/

/-- For `0 ≤ q`, `q` is `q.num.toNat / q.den`. -/
theorem toNat_div_den (q : ℚ) (hq : 0 ≤ q) :
    ((q.num.toNat : ℚ)) / ((q.den : ℕ) : ℚ) = q := by
  have hnum : ((q.num.toNat : ℤ)) = q.num := Int.toNat_of_nonneg (Rat.num_nonneg.mpr hq)
  have h1 : ((q.num.toNat : ℚ)) = ((q.num : ℤ) : ℚ) := by exact_mod_cast hnum
  rw [h1, Rat.num_div_den q]

/-- `ratSqrtFloor q` squared is at most `q`. -/
theorem ratSqrtFloor_sq_le (q : ℚ) (hq : 0 ≤ q) :
    ((ratSqrtFloor q : ℕ) : ℚ) ^ 2 ≤ q := by
  unfold ratSqrtFloor
  set a := q.num.toNat with ha
  set b := q.den with hb
  set s := Nat.sqrt (a * b) with hs
  have hb0 : 0 < b := q.den_pos
  have key : (s / b) ^ 2 * b ≤ a := by
    have h1 : (s / b * b) ^ 2 ≤ s ^ 2 := Nat.pow_le_pow_left (Nat.div_mul_le_self s b) 2
    have h2 : s ^ 2 ≤ a * b := Nat.sqrt_le' (a * b)
    have h3 : (s / b) ^ 2 * b * b ≤ a * b := by
      calc (s / b) ^ 2 * b * b = (s / b * b) ^ 2 := by ring
        _ ≤ s ^ 2 := h1
        _ ≤ a * b := h2
    exact Nat.le_of_mul_le_mul_right h3 hb0
  rw [← toNat_div_den q hq, le_div_iff₀ (by exact_mod_cast hb0 : (0:ℚ) < ((b : ℕ) : ℚ))]
  exact_mod_cast key

/-- `q` is below the square of `ratSqrtFloor q + 1`. -/
theorem lt_ratSqrtFloor_add_one_sq (q : ℚ) (hq : 0 ≤ q) :
    q < (((ratSqrtFloor q : ℕ) : ℚ) + 1) ^ 2 := by
  unfold ratSqrtFloor
  set a := q.num.toNat with ha
  set b := q.den with hb
  set s := Nat.sqrt (a * b) with hs
  have hb0 : 0 < b := q.den_pos
  have key : a < ((s / b + 1) ^ 2) * b := by
    have h1 : a * b < (s + 1) ^ 2 := Nat.lt_succ_sqrt' (a * b)
    have h2 : s + 1 ≤ (s / b + 1) * b := by
      have h2' : s < (s / b + 1) * b := by
        rw [← Nat.div_lt_iff_lt_mul hb0]
        exact Nat.lt_succ_self _
      omega
    have h3 : a * b < ((s / b + 1) * b) ^ 2 := lt_of_lt_of_le h1 (Nat.pow_le_pow_left h2 2)
    have h4 : a * b < (((s / b + 1) ^ 2) * b) * b := by
      calc a * b < ((s / b + 1) * b) ^ 2 := h3
        _ = (((s / b + 1) ^ 2) * b) * b := by ring
    exact Nat.lt_of_mul_lt_mul_right h4
  rw [← toNat_div_den q hq, div_lt_iff₀ (by exact_mod_cast hb0 : (0:ℚ) < ((b : ℕ) : ℚ))]

  exact_mod_cast key

end TreeApp

namespace TreeApp

/-- Correctness of the computable rounding: for `0 ≤ c` and `0 ≤ r`,
    `SqrtQ.round2 ⟨c, r⟩` is the real number `c * sqrt r` rounded to two
    decimal places, ties to even. -/
theorem isRound2_sqrtQ (c r : ℚ) (hc : 0 ≤ c) (hr : 0 ≤ r) :
    isRound2 ((c : ℝ) * Real.sqrt ((r : ℚ) : ℝ)) (SqrtQ.round2 ⟨c, r⟩) := by
  set V : ℚ := (100 * c) ^ 2 * r with hV
  have hV0 : 0 ≤ V := mul_nonneg (sq_nonneg _) hr
  have h1 : ((ratSqrtFloor V : ℕ) : ℚ) ^ 2 ≤ V := ratSqrtFloor_sq_le V hV0
  have h2 : V < (((ratSqrtFloor V : ℕ) : ℚ) + 1) ^ 2 := lt_ratSqrtFloor_add_one_sq V hV0
  set n : ℕ := ratSqrtFloor V with hn
  have hc' : (0 : ℝ) ≤ (c : ℝ) := by exact_mod_cast hc
  have hsq : Real.sqrt ((V : ℚ) : ℝ) = (c : ℝ) * Real.sqrt ((r : ℚ) : ℝ) * 100 := by
    have hcast : ((V : ℚ) : ℝ) = ((100 * (c : ℝ)) ^ 2) * ((r : ℚ) : ℝ) := by
      rw [hV]; push_cast; ring
    rw [hcast, Real.sqrt_mul (sq_nonneg _),
      Real.sqrt_sq (by linarith : (0 : ℝ) ≤ 100 * (c : ℝ))]
    ring
  have hnle : ((n : ℕ) : ℝ) ≤ Real.sqrt ((V : ℚ) : ℝ) := by
    rw [Real.le_sqrt (by positivity) (by exact_mod_cast hV0)]
    exact_mod_cast h1
  have hnlt : Real.sqrt ((V : ℚ) : ℝ) < ((n : ℕ) : ℝ) + 1 := by
    rw [Real.sqrt_lt' (by positivity)]
    exact_mod_cast h2
  have hval : SqrtQ.round2 ⟨c, r⟩ = ((sqrtRoundHalfEven V : ℕ) : ℚ) / 100 := rfl
  rw [hval]
  have hcomp : sqrtRoundHalfEven V =
      (if (2 * (n : ℚ) + 1) ^ 2 < 4 * V then n + 1
       else if 4 * V = (2 * (n : ℚ) + 1) ^ 2 then (if n % 2 = 0 then n else n + 1)
       else n) := rfl
  rw [hcomp]
  split_ifs with hb1 hb2 hb3
  · -- sqrt V strictly above n + 1/2: rounds up to n + 1
    refine ⟨(n : ℤ) + 1, by push_cast; ring, Or.inl ?_⟩
    have hmid : ((n : ℝ)) + 1 / 2 < Real.sqrt ((V : ℚ) : ℝ) := by
      rw [Real.lt_sqrt (by positivity)]
      have hb1' : ((2 * (n : ℝ) + 1)) ^ 2 < 4 * ((V : ℚ) : ℝ) := by exact_mod_cast hb1
      nlinarith [hb1']
    rw [← hsq, abs_lt]
    constructor <;> push_cast <;> linarith
  · -- exact tie at n + 1/2, n even: stays at n
    refine ⟨(n : ℤ), by push_cast; ring, Or.inr ⟨?_, ?_⟩⟩
    · have h4 : (4 : ℝ) * ((V : ℚ) : ℝ) = (2 * (n : ℝ) + 1) ^ 2 := by exact_mod_cast hb2
      have hVeq : ((V : ℚ) : ℝ) = ((n : ℝ) + 1 / 2) ^ 2 := by linear_combination h4 / 4
      have hroot : Real.sqrt ((V : ℚ) : ℝ) = (n : ℝ) + 1 / 2 := by
        rw [hVeq, Real.sqrt_sq (by positivity)]
      rw [← hsq, hroot]
      push_cast
      rw [show ((n : ℝ) + 1 / 2 - (n : ℝ)) = 1 / 2 by ring]
      norm_num
    · exact (Int.even_coe_nat n).mpr (Nat.even_iff.mpr hb3)
  · -- exact tie at n + 1/2, n odd: rounds up to the even n + 1
    refine ⟨(n : ℤ) + 1, by push_cast; ring, Or.inr ⟨?_, ?_⟩⟩
    · have h4 : (4 : ℝ) * ((V : ℚ) : ℝ) = (2 * (n : ℝ) + 1) ^ 2 := by exact_mod_cast hb2
      have hVeq : ((V : ℚ) : ℝ) = ((n : ℝ) + 1 / 2) ^ 2 := by linear_combination h4 / 4
      have hroot : Real.sqrt ((V : ℚ) : ℝ) = (n : ℝ) + 1 / 2 := by
        rw [hVeq, Real.sqrt_sq (by positivity)]
      rw [← hsq, hroot]
      push_cast
      rw [show ((n : ℝ) + 1 / 2 - ((n : ℝ) + 1)) = -(1 / 2) by ring]
      norm_num
    · have hodd : Odd n := Nat.odd_iff.mpr (by omega)
      have : Even (n + 1) := Odd.add_one hodd
      exact_mod_cast (Int.even_coe_nat (n + 1)).mpr this
  · -- sqrt V strictly below n + 1/2: stays at n
    refine ⟨(n : ℤ), by push_cast; ring, Or.inl ?_⟩
    have hlt : 4 * V < ((2 * (n : ℕ) : ℚ) + 1) ^ 2 :=
      lt_of_le_of_ne (not_lt.mp hb1) hb2
    have hmid : Real.sqrt ((V : ℚ) : ℝ) < ((n : ℝ)) + 1 / 2 := by
      rw [Real.sqrt_lt' (by positivity)]
      have hlt' : 4 * ((V : ℚ) : ℝ) < ((2 * (n : ℝ)) + 1) ^ 2 := by exact_mod_cast hlt
      nlinarith [hlt']
    rw [← hsq, abs_lt]
    constructor <;> push_cast <;> linarith

/-- Rounding to two decimals (ties to even) is monotone. -/
theorem isRound2_mono {v w : ℝ} {q p : ℚ} (hq : isRound2 v q) (hp : isRound2 w p)
    (hvw : v ≤ w) : q ≤ p := by
  obtain ⟨a, rfl, ha⟩ := hq
  obtain ⟨b, rfl, hb⟩ := hp
  have hab : a ≤ b := by
    by_contra hcon
    push_neg at hcon
    have hva : (a : ℝ) - 1 / 2 ≤ v * 100 := by
      rcases ha with h | ⟨h, _⟩
      · have := abs_lt.mp h; linarith [this.1]
      · rcases (abs_eq (by norm_num : (0:ℝ) ≤ 1 / 2)).mp h with h' | h' <;> linarith
    have hwb : w * 100 ≤ (b : ℝ) + 1 / 2 := by
      rcases hb with h | ⟨h, _⟩
      · have := abs_lt.mp h; linarith [this.2]
      · rcases (abs_eq (by norm_num : (0:ℝ) ≤ 1 / 2)).mp h with h' | h' <;> linarith
    have hba : (b : ℝ) + 1 ≤ (a : ℝ) := by exact_mod_cast hcon
    have hveq : v * 100 - a = -(1 / 2) := by linarith
    have hweq : w * 100 - b = 1 / 2 := by linarith
    have haeq : (a : ℝ) = (b : ℝ) + 1 := by linarith
    rcases ha with h | ⟨_, hea⟩
    · rw [hveq, abs_neg, abs_of_nonneg (by norm_num : (0:ℝ) ≤ 1 / 2)] at h
      linarith
    rcases hb with h | ⟨_, heb⟩
    · rw [hweq, abs_of_nonneg (by norm_num : (0:ℝ) ≤ 1 / 2)] at h
      linarith
    have hab1 : a = b + 1 := by exact_mod_cast haeq
    rcases hea with ⟨k, hk⟩
    rcases heb with ⟨l, hl⟩
    omega
  have : ((a : ℚ)) ≤ (b : ℚ) := by exact_mod_cast hab
  linarith

/-- A real number has at most one two-decimal rounding. -/
theorem isRound2_unique {v : ℝ} {q p : ℚ} (hq : isRound2 v q) (hp : isRound2 v p) :
    q = p :=
  le_antisymm (isRound2_mono hq hp le_rfl) (isRound2_mono hp hq le_rfl)

end TreeApp

namespace TreeApp

/-! ## Unfolding the estimator branches -/

/-- DBH branch: whenever `dbh` is present the estimator is
    `round2` of `3.67 * 0.47 * (AGB + 0.2 * AGB)` with
    `AGB = 0.0509 * density * dbh^2 * sqrt dbh`, whatever `rcd` is. -/
theorem calculate_co2_dbh (species_data : List Species) (scientific_name : String)
    (rcd : Option ℚ) (m : ℚ) :
    calculate_co2 species_data scientific_name rcd (some m) =
      SqrtQ.round2
        ⟨3.67 * (0.47 * (0.0509 * speciesDensity species_data scientific_name * m ^ 2 +
          0.2 * (0.0509 * speciesDensity species_data scientific_name * m ^ 2))), m⟩ := by
  cases rcd <;> rfl

/-- RCD branch: with `dbh` absent and `rcd` present the density is not
    used at all. -/
theorem calculate_co2_rcd (species_data : List Species) (scientific_name : String)
    (r : ℚ) :
    calculate_co2 species_data scientific_name (some r) none =
      SqrtQ.round2 ⟨3.67 * (0.47 * (0.042 * r ^ 2 + 0.2 * (0.042 * r ^ 2))), r⟩ := rfl

/-- `x ^ (5/2) = x^2 * sqrt x` on positive reals. -/
theorem rpow_five_halves {x : ℝ} (hx : 0 < x) :
    x ^ ((5 : ℝ) / 2) = x ^ 2 * Real.sqrt x := by
  rw [show ((5 : ℝ) / 2) = ((2 : ℕ) : ℝ) + 1 / 2 by norm_num, Real.rpow_add hx,
    Real.rpow_natCast, ← Real.sqrt_eq_rpow]

end TreeApp

namespace TreeApp

/-! ## Estimator claims -/

/-- **C1**: for every species key found in the table (wood density `d`)
    and every positive `dbh_cm` with `rcd_cm` absent, `estimate_co2`
    returns `round(0.47 * (AGB + 0.2*AGB) * 3.67, 2)` with
    `AGB = 0.0509 * d * dbh_cm^2.5` — the full AGB/BGB/carbon chain in
    kg CO₂ (rounding read as round-half-to-even over exact reals). -/
theorem C1_dbh_full_chain (species_data : List Species) (scientific_name : String)
    (sp : Species) (m : ℚ)
    (hfind : species_data.find? (fun s => s.scientific_name == scientific_name) = some sp)
    (hd0 : 0 < sp.wood_density) (hm : 0 < m) :
    isRound2
      (0.47 * ((0.0509 * (sp.wood_density : ℝ) * ((m : ℝ)) ^ ((5 : ℝ) / 2)) +
        0.2 * (0.0509 * (sp.wood_density : ℝ) * ((m : ℝ)) ^ ((5 : ℝ) / 2))) * 3.67)
      (calculate_co2 species_data scientific_name none (some m)) := by
  have hsd : speciesDensity species_data scientific_name = sp.wood_density := by
    unfold speciesDensity; rw [hfind]
  rw [calculate_co2_dbh, hsd]
  have hcoef : (0:ℚ) ≤ 3.67 * (0.47 * (0.0509 * sp.wood_density * m ^ 2 +
      0.2 * (0.0509 * sp.wood_density * m ^ 2))) := by
    nlinarith [mul_pos hd0 (pow_pos hm 2)]
  have h := isRound2_sqrtQ _ m hcoef hm.le
  have hm' : (0:ℝ) < ((m : ℚ) : ℝ) := by exact_mod_cast hm
  have hveq :
      (0.47 * ((0.0509 * (sp.wood_density : ℝ) * ((m : ℝ)) ^ ((5 : ℝ) / 2)) +
        0.2 * (0.0509 * (sp.wood_density : ℝ) * ((m : ℝ)) ^ ((5 : ℝ) / 2))) * 3.67)
      = ((3.67 * (0.47 * (0.0509 * sp.wood_density * m ^ 2 +
          0.2 * (0.0509 * sp.wood_density * m ^ 2))) : ℚ) : ℝ) *
        Real.sqrt ((m : ℚ) : ℝ) := by
    rw [rpow_five_halves hm']
    push_cast
    ring
  rw [hveq]
  exact h

/-- Witness for C1 at density 0.65 and dbh 4. -/
theorem C1_dbh_full_chain_witness :
    (([⟨"Acacia", 0.65⟩] : List Species).find?
        (fun s => s.scientific_name == "Acacia") = some ⟨"Acacia", 0.65⟩) ∧
    isRound2
      (0.47 * ((0.0509 * (((0.65 : ℚ)) : ℝ) * (((4 : ℚ)) : ℝ) ^ ((5 : ℝ) / 2)) +
        0.2 * (0.0509 * (((0.65 : ℚ)) : ℝ) * (((4 : ℚ)) : ℝ) ^ ((5 : ℝ) / 2))) * 3.67)
      (calculate_co2 [⟨"Acacia", 0.65⟩] "Acacia" none (some 4)) :=
  ⟨rfl, C1_dbh_full_chain [⟨"Acacia", 0.65⟩] "Acacia" ⟨"Acacia", 0.65⟩ 4
    rfl (by norm_num [Species.wood_density]) (by norm_num)⟩

/-- **C3**: for positive `rcd_cm` with `dbh_cm` absent, the result is
    `round(0.47 * 1.2 * (0.042 * rcd_cm^2.5) * 3.67, 2)` and does not
    depend on the species key (and hence not on its wood density). -/
theorem C3_rcd_density_free (species_data : List Species) (s1 s2 : String)
    (r : ℚ) (hr : 0 < r) :
    calculate_co2 species_data s1 (some r) none =
      calculate_co2 species_data s2 (some r) none ∧
    isRound2 (0.47 * 1.2 * (0.042 * ((r : ℝ)) ^ ((5 : ℝ) / 2)) * 3.67)
      (calculate_co2 species_data s1 (some r) none) := by
  constructor
  · rw [calculate_co2_rcd, calculate_co2_rcd]
  · rw [calculate_co2_rcd]
    have hcoef : (0:ℚ) ≤ 3.67 * (0.47 * (0.042 * r ^ 2 + 0.2 * (0.042 * r ^ 2))) := by
      nlinarith [pow_pos hr 2]
    have h := isRound2_sqrtQ _ r hcoef hr.le
    have hr' : (0:ℝ) < ((r : ℚ) : ℝ) := by exact_mod_cast hr
    have hveq : (0.47 * 1.2 * (0.042 * ((r : ℝ)) ^ ((5 : ℝ) / 2)) * 3.67)
        = ((3.67 * (0.47 * (0.042 * r ^ 2 + 0.2 * (0.042 * r ^ 2))) : ℚ) : ℝ) *
          Real.sqrt ((r : ℚ) : ℝ) := by
      rw [rpow_five_halves hr']
      push_cast
      ring
    rw [hveq]
    exact h

/-- Witness for C3 at rcd 4 with two different species keys. -/
theorem C3_rcd_density_free_witness :
    (calculate_co2 [⟨"Acacia", 0.65⟩, ⟨"Mango", 0.5⟩] "Acacia" (some 4) none =
      calculate_co2 [⟨"Acacia", 0.65⟩, ⟨"Mango", 0.5⟩] "Mango" (some 4) none) ∧
    isRound2 (0.47 * 1.2 * (0.042 * (((4 : ℚ)) : ℝ) ^ ((5 : ℝ) / 2)) * 3.67)
      (calculate_co2 [⟨"Acacia", 0.65⟩, ⟨"Mango", 0.5⟩] "Acacia" (some 4) none) :=
  C3_rcd_density_free [⟨"Acacia", 0.65⟩, ⟨"Mango", 0.5⟩] "Acacia" "Mango" 4 (by norm_num)

end TreeApp

namespace TreeApp

/-- **C6**: the estimator is total (the embedding is a total function —
    the Python never raises: the bare `except` catches the failed lookup).
    When the species key is absent the fallback density 0.6 is used and a
    result is still returned, and with both measurements null the result
    is exactly 0 for every species key and table. -/
theorem C6_never_fails (species_data : List Species) (scientific_name : String)
    (hmiss : species_data.find? (fun s => s.scientific_name == scientific_name) = none) :
    (∀ rcd dbh, calculate_co2 species_data scientific_name rcd dbh =
        co2WithDensity 0.6 rcd dbh) ∧
    (∀ (tbl : List Species) (s : String), calculate_co2 tbl s none none = 0) := by
  refine ⟨fun rcd dbh => ?_, fun tbl s => rfl⟩
  unfold calculate_co2
  congr 1
  unfold speciesDensity
  rw [hmiss]

/-- Witness for C6: a key absent from the table. -/
theorem C6_never_fails_witness :
    calculate_co2 [⟨"Acacia", 0.7⟩] "Baobab" (some 3) none =
      co2WithDensity 0.6 (some 3) none ∧
    calculate_co2 [⟨"Acacia", 0.7⟩] "Quercus" none none = 0 :=
  ⟨(C6_never_fails [⟨"Acacia", 0.7⟩] "Baobab" rfl).1 (some 3) none,
   (C6_never_fails [⟨"Acacia", 0.7⟩] "Baobab" rfl).2 [⟨"Acacia", 0.7⟩] "Quercus"⟩

/-- **C7**: in DBH mode the estimator is monotone (non-decreasing, the
    only monotonicity the final 2-decimal rounding can preserve) in both
    the measurement and the looked-up density, including after rounding:
    larger density and larger dbh never give a smaller result. -/
theorem C7_dbh_monotone (species_data : List Species) (s1 s2 : String) (m1 m2 : ℚ)
    (hd1 : 0 < speciesDensity species_data s1)
    (hd : speciesDensity species_data s1 ≤ speciesDensity species_data s2)
    (hm1 : 0 < m1) (hm : m1 ≤ m2) :
    calculate_co2 species_data s1 none (some m1) ≤
      calculate_co2 species_data s2 none (some m2) := by
  rw [calculate_co2_dbh, calculate_co2_dbh]
  set d1 := speciesDensity species_data s1 with hd1def
  set d2 := speciesDensity species_data s2 with hd2def
  have hd2 : 0 < d2 := lt_of_lt_of_le hd1 hd
  have hm2 : 0 < m2 := lt_of_lt_of_le hm1 hm
  have hc1 : (0:ℚ) ≤ 3.67 * (0.47 * (0.0509 * d1 * m1 ^ 2 + 0.2 * (0.0509 * d1 * m1 ^ 2))) := by
    nlinarith [mul_pos hd1 (pow_pos hm1 2)]
  have hc2 : (0:ℚ) ≤ 3.67 * (0.47 * (0.0509 * d2 * m2 ^ 2 + 0.2 * (0.0509 * d2 * m2 ^ 2))) := by
    nlinarith [mul_pos hd2 (pow_pos hm2 2)]
  have h1 := isRound2_sqrtQ _ m1 hc1 hm1.le
  have h2 := isRound2_sqrtQ _ m2 hc2 hm2.le
  refine isRound2_mono h1 h2 ?_
  have hprod : d1 * m1 ^ 2 ≤ d2 * m2 ^ 2 :=
    mul_le_mul hd (pow_le_pow_left₀ hm1.le hm 2) (pow_nonneg hm1.le 2) hd2.le
  have hq : (3.67 * (0.47 * (0.0509 * d1 * m1 ^ 2 + 0.2 * (0.0509 * d1 * m1 ^ 2))) : ℚ) ≤
      3.67 * (0.47 * (0.0509 * d2 * m2 ^ 2 + 0.2 * (0.0509 * d2 * m2 ^ 2))) := by
    nlinarith [hprod]
  exact mul_le_mul (by exact_mod_cast hq)
    (Real.sqrt_le_sqrt (by exact_mod_cast hm))
    (Real.sqrt_nonneg _) (by exact_mod_cast hc2)

/-- Witness for C7: density 0.5 ≤ 0.7 and dbh 1 ≤ 4. -/
theorem C7_dbh_monotone_witness :
    (0 : ℚ) < speciesDensity [⟨"A", 0.5⟩, ⟨"B", 0.7⟩] "A" ∧
    speciesDensity [⟨"A", 0.5⟩, ⟨"B", 0.7⟩] "A" ≤
      speciesDensity [⟨"A", 0.5⟩, ⟨"B", 0.7⟩] "B" ∧
    calculate_co2 [⟨"A", 0.5⟩, ⟨"B", 0.7⟩] "A" none (some 1) ≤
      calculate_co2 [⟨"A", 0.5⟩, ⟨"B", 0.7⟩] "B" none (some 4) := by
  have e1 : speciesDensity [⟨"A", 0.5⟩, ⟨"B", 0.7⟩] "A" = 0.5 := rfl
  have e2 : speciesDensity [⟨"A", 0.5⟩, ⟨"B", 0.7⟩] "B" = 0.7 := rfl
  refine ⟨by rw [e1]; norm_num, by rw [e1, e2]; norm_num, ?_⟩
  exact C7_dbh_monotone [⟨"A", 0.5⟩, ⟨"B", 0.7⟩] "A" "B" 1 4
    (by rw [e1]; norm_num) (by rw [e1, e2]; norm_num) (by norm_num) (by norm_num)

/-- **C10**: when both measurements are given, the DBH branch wins and the
    `rcd` value is ignored — the Python checks `dbh is not None` first. -/
theorem C10_dbh_overrides_rcd (species_data : List Species) (scientific_name : String)
    (r m : ℚ) (_hr : 0 < r) :
    calculate_co2 species_data scientific_name (some r) (some m) =
      calculate_co2 species_data scientific_name none (some m) := rfl

/-- Witness for C10 at rcd 5, dbh 20. -/
theorem C10_dbh_overrides_rcd_witness :
    calculate_co2 [] "X" (some 5) (some 20) = calculate_co2 [] "X" none (some 20) :=
  C10_dbh_overrides_rcd [] "X" 5 20 (by norm_num)

/-- The code's value at density 0.65, dbh 20: exactly 122.50 kg. -/
theorem co2_density065_dbh20 :
    calculate_co2 [⟨"Mango", 0.65⟩] "Mango" none (some 20) = 245 / 2 := by
  rw [calculate_co2_dbh]
  have hsd : speciesDensity [⟨"Mango", (0.65:ℚ)⟩] "Mango" = 0.65 := rfl
  rw [hsd]
  have hcoefval : (3.67 * (0.47 * (0.0509 * (0.65:ℚ) * 20 ^ 2 +
      0.2 * (0.0509 * 0.65 * 20 ^ 2))) : ℚ) = 27.39279192 := by norm_num
  rw [hcoefval]
  have h1 := isRound2_sqrtQ 27.39279192 20 (by norm_num) (by norm_num)
  have h2 : isRound2 (((27.39279192 : ℚ) : ℝ) * Real.sqrt (((20 : ℚ)) : ℝ))
      (245 / 2) := by
    refine ⟨12250, by norm_num, Or.inl ?_⟩
    have hcast : (((20 : ℚ)) : ℝ) = (20 : ℝ) := by norm_num
    have hl : (4.4719 : ℝ) < Real.sqrt (((20 : ℚ)) : ℝ) := by
      rw [hcast]
      exact (Real.lt_sqrt (by norm_num)).mpr (by norm_num)
    have hu : Real.sqrt (((20 : ℚ)) : ℝ) < 4.47214 := by
      rw [hcast]
      exact (Real.sqrt_lt' (by norm_num)).mpr (by norm_num)
    have hc : ((27.39279192 : ℚ) : ℝ) = 27.39279192 := by norm_num
    rw [hc, abs_lt]
    constructor <;> push_cast <;> nlinarith [hl, hu]
  exact isRound2_unique h1 h2

/-- **C8 counterexample**: at density 0.65 and dbh 20 the code returns
    122.50 kg, not approximately 1225.74 kg as the spec's worked example
    states (the example's AGB 591.98 is ten times
    `0.0509 * 0.65 * 20^2.5 ≈ 59.19`). -/
theorem C8_worked_example_counterexample :
    calculate_co2 [⟨"Mango", 0.65⟩] "Mango" none (some 20) = 245 / 2 ∧
    ¬ |calculate_co2 [⟨"Mango", 0.65⟩] "Mango" none (some 20) - (1225.74 : ℚ)| ≤ 1 := by
  refine ⟨co2_density065_dbh20, ?_⟩
  rw [co2_density065_dbh20, abs_of_nonpos (by norm_num)]
  norm_num

/-- **C8 (amended)**: for a species of wood density 0.65 and dbh 20 the
    chain gives AGB ≈ 59.19, BGB ≈ 11.84, carbon ≈ 33.38 and a final
    result of exactly 122.50 kg CO₂ — one tenth of the spec's example. -/
theorem C8_worked_example_amended :
    calculate_co2 [⟨"Mango", 0.65⟩] "Mango" none (some 20) = 245 / 2 :=
  co2_density065_dbh20

end TreeApp

namespace TreeApp

/-! ## Allocator lemmas -/

/-- `parseAll` fails as soon as one identifier has no trailing digits. -/
theorem parseAll_eq_none {l : List String} {i : String} (hi : i ∈ l)
    (hbad : trailingNum i = none) : parseAll l = none := by
  induction l with
  | nil => cases hi
  | cons a rest ih =>
    rcases List.mem_cons.mp hi with rfl | hmem
    · cases h : parseAll rest <;> simp [parseAll, hbad, h]
    · cases h : trailingNum a <;> simp [parseAll, ih hmem, h]

/-- When every identifier parses, `parseAll` returns exactly the list of
    trailing numbers. -/
theorem parseAll_eq_some {l : List String} (h : ∀ i ∈ l, trailingNum i ≠ none) :
    ∃ ns, parseAll l = some ns ∧
      (∀ x ∈ ns, ∃ i ∈ l, trailingNum i = some x) ∧
      (∀ i ∈ l, ∀ k, trailingNum i = some k → k ∈ ns) := by
  induction l with
  | nil => exact ⟨[], rfl, by simp, by simp⟩
  | cons a rest ih =>
    obtain ⟨ns, hns, h1, h2⟩ := ih (fun i hi => h i (List.mem_cons_of_mem a hi))
    obtain ⟨n, hn⟩ := Option.ne_none_iff_exists'.mp (h a (List.mem_cons_self a rest))
    refine ⟨n :: ns, ?_, ?_, ?_⟩
    · simp [parseAll, hn, hns]
    · intro x hx
      rcases List.mem_cons.mp hx with rfl | hx'
      · exact ⟨a, List.mem_cons_self a rest, hn⟩
      · obtain ⟨i, hi, hti⟩ := h1 x hx'
        exact ⟨i, List.mem_cons_of_mem a hi, hti⟩
    · intro i hi k hk
      rcases List.mem_cons.mp hi with rfl | hi'
      · rw [hn] at hk
        injection hk with hk'
        simp [hk']
      · exact List.mem_cons_of_mem n (h2 i hi' k hk)

/-- The accumulator never decreases under `foldl max`. -/
theorem le_foldl_max_self (l : List ℕ) (b : ℕ) : b ≤ l.foldl max b := by
  induction l generalizing b with
  | nil => exact le_refl b
  | cons a rest ih => exact le_trans (le_max_left b a) (ih (max b a))

/-- `foldl max` dominates every member. -/
theorem le_foldl_max {l : List ℕ} {x : ℕ} (hx : x ∈ l) (b : ℕ) :
    x ≤ l.foldl max b := by
  induction l generalizing b with
  | nil => cases hx
  | cons a rest ih =>
    rcases List.mem_cons.mp hx with rfl | h'
    · exact le_trans (le_max_right b x) (le_foldl_max_self rest (max b x))
    · exact ih h' (max b a)

/-- `foldl max` stays below any common upper bound. -/
theorem foldl_max_le {l : List ℕ} {M : ℕ} (h : ∀ x ∈ l, x ≤ M) {b : ℕ} (hb : b ≤ M) :
    l.foldl max b ≤ M := by
  induction l generalizing b with
  | nil => exact hb
  | cons a rest ih =>
    exact ih (fun x hx => h x (List.mem_cons_of_mem a hx))
      (max_le hb (h a (List.mem_cons_self a rest)))

/-! ## Allocator claims -/

/-- **C2**: the allocator is sequential per institution: with no matching
    tree (same institution case-insensitively, identifier starting with
    the 3-letter upper-cased prefix) it returns `<prefix>001`; otherwise,
    when every matching identifier parses and `M` is the maximum trailing
    number, it returns `prefix ++ pad3 (M+1)`; and the spec's two
    concrete examples hold. -/
theorem C2_sequential_id (institution_name : String) (trees : List TreeRow) (M : ℕ)
    (hall : ∀ t ∈ trees, pyLower t.institution = pyLower institution_name →
        strStarts t.tree_id (pyUpper (strTake institution_name 3)) →
        ∃ k, trailingNum t.tree_id = some k ∧ k ≤ M)
    (hwit : ∃ t ∈ trees, pyLower t.institution = pyLower institution_name ∧
        strStarts t.tree_id (pyUpper (strTake institution_name 3)) ∧
        trailingNum t.tree_id = some M) :
    generate_tree_id institution_name trees =
      some (pyUpper (strTake institution_name 3) ++ pad3 (M + 1)) ∧
    (∀ trees' : List TreeRow,
        (∀ t ∈ trees', pyLower t.institution = pyLower institution_name →
            ¬ strStarts t.tree_id (pyUpper (strTake institution_name 3))) →
        generate_tree_id institution_name trees' =
          some (pyUpper (strTake institution_name 3) ++ "001")) ∧
    generate_tree_id "Greenwood" [] = some "GRE001" ∧
    generate_tree_id "Greenwood"
      [⟨"GRE001", "Greenwood"⟩, ⟨"GRE005", "Greenwood"⟩] = some "GRE006" := by
  obtain ⟨t0, ht0mem, ht0inst, ht0pre, ht0num⟩ := hwit
  refine ⟨?_, ?_, by decide, by decide⟩
  · have hne : trees.isEmpty = false := by
      cases trees with
      | nil => cases ht0mem
      | cons a l => rfl
    simp only [generate_tree_id, hne, Bool.false_eq_true, if_false]
    have hmem_ids : t0.tree_id ∈
        ((trees.filter (fun t => pyLower t.institution == pyLower institution_name)).map
          (fun t => t.tree_id)).filter
            (fun i => strStarts i (pyUpper (strTake institution_name 3))) := by
      refine List.mem_filter.mpr ⟨?_, ht0pre⟩
      exact List.mem_map.mpr
        ⟨t0, List.mem_filter.mpr ⟨ht0mem, beq_iff_eq.mpr ht0inst⟩, rfl⟩
    have hids_ne : (((trees.filter
        (fun t => pyLower t.institution == pyLower institution_name)).map
          (fun t => t.tree_id)).filter
            (fun i => strStarts i (pyUpper (strTake institution_name 3)))).isEmpty
        = false := by
      cases hid : ((trees.filter
          (fun t => pyLower t.institution == pyLower institution_name)).map
            (fun t => t.tree_id)).filter
              (fun i => strStarts i (pyUpper (strTake institution_name 3))) with
      | nil => rw [hid] at hmem_ids; cases hmem_ids
      | cons _ _ => rfl
    simp only [hids_ne, Bool.false_eq_true, if_false]
    have hparse : ∀ i ∈ ((trees.filter
        (fun t => pyLower t.institution == pyLower institution_name)).map
          (fun t => t.tree_id)).filter
            (fun i => strStarts i (pyUpper (strTake institution_name 3))),
        trailingNum i ≠ none := by
      intro i hi
      obtain ⟨hmap, hpre⟩ := List.mem_filter.mp hi
      obtain ⟨t, htl1, rfl⟩ := List.mem_map.mp hmap
      obtain ⟨htmem, hinst⟩ := List.mem_filter.mp htl1
      obtain ⟨k, hk, _⟩ := hall t htmem (beq_iff_eq.mp hinst) hpre
      rw [hk]
      simp
    obtain ⟨ns, hns, hup, hdown⟩ := parseAll_eq_some hparse
    rw [hns]
    have hmax : ns.foldl max 0 = M := by
      apply le_antisymm
      · refine foldl_max_le ?_ (Nat.zero_le M)
        intro x hx
        obtain ⟨i, hi, hti⟩ := hup x hx
        obtain ⟨hmap, hpre⟩ := List.mem_filter.mp hi
        obtain ⟨t, htl1, rfl⟩ := List.mem_map.mp hmap
        obtain ⟨htmem, hinst⟩ := List.mem_filter.mp htl1
        obtain ⟨k, hk, hkM⟩ := hall t htmem (beq_iff_eq.mp hinst) hpre
        rw [hk] at hti
        injection hti with h'
        omega
      · exact le_foldl_max (hdown t0.tree_id hmem_ids M ht0num) 0
    simp only [hmax]
  · intro trees' hnone
    cases trees' with
    | nil => rfl
    | cons a l =>
      have hids : (((a :: l).filter
          (fun t => pyLower t.institution == pyLower institution_name)).map
            (fun t => t.tree_id)).filter
              (fun i => strStarts i (pyUpper (strTake institution_name 3))) = [] := by
        refine List.filter_eq_nil_iff.mpr ?_
        intro i hi
        obtain ⟨t, htl1, rfl⟩ := List.mem_map.mp hi
        obtain ⟨htmem, hinst⟩ := List.mem_filter.mp htl1
        exact hnone t htmem (beq_iff_eq.mp hinst)
      simp only [generate_tree_id, hids]
      rfl

end TreeApp

namespace TreeApp

/-- Witness for C2 at the spec's Greenwood example (max suffix 5). -/
theorem C2_sequential_id_witness :
    generate_tree_id "Greenwood"
        [⟨"GRE001", "Greenwood"⟩, ⟨"GRE005", "Greenwood"⟩] =
      some (pyUpper (strTake "Greenwood" 3) ++ pad3 (5 + 1)) ∧
    (∀ trees' : List TreeRow,
        (∀ t ∈ trees', pyLower t.institution = pyLower "Greenwood" →
            ¬ strStarts t.tree_id (pyUpper (strTake "Greenwood" 3))) →
        generate_tree_id "Greenwood" trees' =
          some (pyUpper (strTake "Greenwood" 3) ++ "001")) ∧
    generate_tree_id "Greenwood" [] = some "GRE001" ∧
    generate_tree_id "Greenwood"
      [⟨"GRE001", "Greenwood"⟩, ⟨"GRE005", "Greenwood"⟩] = some "GRE006" := by
  refine C2_sequential_id "Greenwood"
    [⟨"GRE001", "Greenwood"⟩, ⟨"GRE005", "Greenwood"⟩] 5 ?_ ?_
  · intro t ht h1 h2
    rcases List.mem_cons.mp ht with rfl | ht'
    · exact ⟨1, by decide, by norm_num⟩
    rcases List.mem_cons.mp ht' with rfl | ht''
    · exact ⟨5, by decide, le_refl 5⟩
    · cases ht''
  · exact ⟨⟨"GRE005", "Greenwood"⟩, by simp, by decide, by decide, by decide⟩

/-- **C4**: the allocator is institution-scoped: its result depends only
    on the trees whose institution matches case-insensitively — rows of
    other institutions never influence it, even when their identifiers
    carry the same prefix, and matching rows are found whatever the case
    of their institution field. -/
theorem C4_institution_scope (institution_name : String) (trees : List TreeRow) :
    generate_tree_id institution_name trees =
      generate_tree_id institution_name
        (trees.filter (fun t => pyLower t.institution == pyLower institution_name)) := by
  cases trees with
  | nil => rfl
  | cons a l =>
    have hff : ∀ m : List TreeRow,
        (m.filter (fun t => pyLower t.institution == pyLower institution_name)).filter
            (fun t => pyLower t.institution == pyLower institution_name) =
          m.filter (fun t => pyLower t.institution == pyLower institution_name) :=
      fun m => by simp [List.filter_filter]
    by_cases hf : (a :: l).filter
        (fun t => pyLower t.institution == pyLower institution_name) = []
    · simp [generate_tree_id, hf]
    · have h2 : ((a :: l).filter
          (fun t => pyLower t.institution == pyLower institution_name)).isEmpty
          = false := by
        cases hq : (a :: l).filter
            (fun t => pyLower t.institution == pyLower institution_name) with
        | nil => exact absurd hq hf
        | cons _ _ => rfl
      simp only [generate_tree_id, hff, h2, List.isEmpty_cons, Bool.false_eq_true,
        if_false]

/-- **C5**: the allocator signals an error (here: returns `none`, where
    the Python raises an uncaught `AttributeError`) whenever some
    identifier of the institution starting with the prefix has no
    trailing run of digits — it neither returns an identifier nor skips
    the malformed entry. -/
theorem C5_malformed_id (institution_name : String) (trees : List TreeRow)
    (t : TreeRow) (hmem : t ∈ trees)
    (hinst : pyLower t.institution = pyLower institution_name)
    (hpre : strStarts t.tree_id (pyUpper (strTake institution_name 3)))
    (hbad : trailingNum t.tree_id = none) :
    generate_tree_id institution_name trees = none := by
  have hne : trees.isEmpty = false := by
    cases trees with
    | nil => cases hmem
    | cons a l => rfl
  simp only [generate_tree_id, hne, Bool.false_eq_true, if_false]
  have hmem_ids : t.tree_id ∈
      ((trees.filter (fun t => pyLower t.institution == pyLower institution_name)).map
        (fun t => t.tree_id)).filter
          (fun i => strStarts i (pyUpper (strTake institution_name 3))) := by
    refine List.mem_filter.mpr ⟨?_, hpre⟩
    exact List.mem_map.mpr ⟨t, List.mem_filter.mpr ⟨hmem, beq_iff_eq.mpr hinst⟩, rfl⟩
  have hids_ne : (((trees.filter
      (fun t => pyLower t.institution == pyLower institution_name)).map
        (fun t => t.tree_id)).filter
          (fun i => strStarts i (pyUpper (strTake institution_name 3)))).isEmpty
      = false := by
    cases hid : ((trees.filter
        (fun t => pyLower t.institution == pyLower institution_name)).map
          (fun t => t.tree_id)).filter
            (fun i => strStarts i (pyUpper (strTake institution_name 3))) with
    | nil => rw [hid] at hmem_ids; cases hmem_ids
    | cons _ _ => rfl
  simp only [hids_ne, Bool.false_eq_true, if_false]
  rw [parseAll_eq_none hmem_ids hbad]

/-- Witness for C5: a Greenwood identifier with no trailing digits. -/
theorem C5_malformed_id_witness :
    generate_tree_id "Greenwood" [⟨"GREabc", "Greenwood"⟩] = none :=
  C5_malformed_id "Greenwood" [⟨"GREabc", "Greenwood"⟩] ⟨"GREabc", "Greenwood"⟩
    (by simp) (by decide) (by decide) (by decide)

/-! ## Dashboard claims -/

/-- **C9 counterexample**: the invariant "the inactive measurement is
    null in every reachable tree state" fails: updating a freshly planted
    (Young, rcd = 0.1, dbh = None) tree to Mature with dbh = 5 keeps the
    stale `rcd_cm = 0.1`, because `update_data` only overwrites the field
    of the selected stage and otherwise keeps `tree['rcd_cm']`. -/
theorem C9_stale_inactive_counterexample :
    Reachable [] (updateTree [] (newTree "Acacia") "Alive" "Mature (DBH)" 5 1) ∧
    (updateTree [] (newTree "Acacia") "Alive" "Mature (DBH)" 5 1).tree_stage
      = "Mature (DBH)" ∧
    (updateTree [] (newTree "Acacia") "Alive" "Mature (DBH)" 5 1).rcd_cm ≠ none := by
  refine ⟨Reachable.update (newTree "Acacia") "Alive" "Mature (DBH)" 5 1
    (Reachable.create "Acacia") (Or.inl rfl) (Or.inr rfl)
    (by norm_num) (by norm_num), by decide, by decide⟩

/-- **C9 (amended)**: in every reachable tree state the *active*
    measurement is set — `rcd_cm` is always non-null (creation sets it
    and no update clears it), and `dbh_cm` is non-null whenever the stage
    flag is Mature — but the inactive measurement is not nulled: an
    update leaves the other stage's field at its previous value. -/
theorem C9_active_measurement_nonnull (species_data : List Species) (t : TreeRec)
    (h : Reachable species_data t) :
    t.rcd_cm ≠ none ∧ (t.tree_stage = "Mature (DBH)" → t.dbh_cm ≠ none) := by
  induction h with
  | create name =>
    constructor
    · simp [newTree]
    · intro hstage
      simp [newTree] at hstage
  | update t status stage meas height ht hs hg hm hh ih =>
    obtain ⟨ih1, ih2⟩ := ih
    constructor
    · simp only [updateTree]
      split_ifs with h1 h2
      · simp
      · exact absurd h1.2 h2
      · exact ih1
    · intro hstage
      simp only [updateTree] at hstage ⊢
      by_cases hA : status = "Alive"
      · rcases hg with hY | hM
        · rw [if_pos hA, hY] at hstage
          exact absurd hstage (by decide)
        · rw [if_pos ⟨hA, hM⟩, hM]
          simp
      · rw [if_neg hA] at hstage
        rw [if_neg (fun hc => hA hc.1)]
        exact ih2 hstage

/-- Witness for the amended C9 at a freshly created tree. -/
theorem C9_active_measurement_nonnull_witness :
    (newTree "Acacia").rcd_cm ≠ none ∧
    ((newTree "Acacia").tree_stage = "Mature (DBH)" → (newTree "Acacia").dbh_cm ≠ none) :=
  C9_active_measurement_nonnull [] (newTree "Acacia") (Reachable.create "Acacia")

end TreeApp
